import Mathlib

/-!
Verification of the ChorusKernel rendering core.

The repository contains three C++ kernel variants:
* the consolidated N-oscillator kernel (`src/unnamed/part_000`, duplicated in
  `src/README.md`) with `calcTap` / `calcTaps` / `calcDisplacement` /
  `generate` / `writeSample` / `doRendering`;
* a single-LFO variant (`src/Sources/Kernel/C++/Kernel.hpp`) whose
  `doRenderingStateChanged` stops parameter ramps;
* a single-LFO historical variant (`src/unnamed/part_001`) whose
  `renderFrames` guards the delay-line read/write on a non-zero displacement.

Samples are embedded as rationals (the C++ code uses `AUValue` floats; all
claims under consideration are about exact data flow, not rounding).  The
DSPHeaders support classes (LFO, DelayBuffer, the Ramped Parameter family)
are not part of the repository sources, so they are modelled from the spec
where a claim needs their behaviour; every such definition is marked.
-/

namespace ChorusKernel

/-- Modelled from the spec: the Ramped Parameter family
(`DSPHeaders/Parameters/...` is not under `src/`).  A parameter holds a
current value, a target value and the remaining ramp duration in samples;
percentage parameters store their value already normalized to 0–1 (the
0–100 scaling happens at the parameter-event boundary). -/
structure Param where
  value : ℚ
  target : ℚ
  remaining : ℕ
deriving DecidableEq

/-- Modelled from the spec: `set(targetValue, rampDurationSamples)` begins a
ramp toward the target; duration 0 snaps immediately. -/
def Param.set (p : Param) (v : ℚ) (dur : ℕ) : Param :=
  if dur = 0 then ⟨v, v, 0⟩ else ⟨p.value, v, dur⟩

/-- Modelled from the spec: `get()` returns the settled target value
irrespective of ramp state. -/
def Param.get (p : Param) : ℚ := p.target

/-- Modelled from the spec: `frameValue()` returns the interpolated value for
the next sample and advances the ramp state by one sample; once the ramp has
elapsed it keeps returning the settled value. -/
def Param.frameValue (p : Param) : ℚ × Param :=
  if p.remaining = 0 then (p.value, p)
  else
    let v := p.value + (p.target - p.value) / (p.remaining : ℚ)
    (v, ⟨v, p.target, p.remaining - 1⟩)

/-- Modelled from the spec: `stopRamping()` immediately snaps current to
target, cancelling any in-progress ramp. -/
def Param.stopRamping (p : Param) : Param := ⟨p.target, p.target, 0⟩

/-- Modelled from the spec: the boolean parameter specialization reads as
true via a greater-than-0.5 threshold on the stored value. -/
def Param.boolGet (p : Param) : Bool := decide ((1:ℚ)/2 < p.target)

/-- A parameter is settled when no ramp is in progress and its current value
has reached its target. -/
def Param.settled (p : Param) : Prop := p.remaining = 0 ∧ p.value = p.target

instance (p : Param) : Decidable p.settled :=
  inferInstanceAs (Decidable (_ ∧ _))

/-- Modelled from the spec: the LFO (`DSPHeaders/LFO.hpp` is not under
`src/`).  The waveform is kept abstract as a function of phase; `value()`
evaluates it at the current phase, `quadPhaseValue()` a quarter cycle ahead,
and `increment()` advances the phase by the per-sample delta, wrapped into
[0, 1). -/
structure LFO where
  wave : ℚ → ℚ
  sampleRate : ℚ
  phase : ℚ
  delta : ℚ

/-- Modelled from the spec: the waveform evaluated at the current phase. -/
def LFO.value (l : LFO) : ℚ := l.wave l.phase

/-- Modelled from the spec: the waveform evaluated 90° (a quarter cycle)
ahead of the current phase. -/
def LFO.quadPhaseValue (l : LFO) : ℚ := l.wave (l.phase + 1/4)

/-- Modelled from the spec: advance the phase by the current per-sample
delta, wrapping cyclically into [0, 1). -/
def LFO.increment (l : LFO) : LFO :=
  let p := l.phase + l.delta
  { l with phase := p - ⌊p⌋ }

/-- Modelled from the spec: `setFrequency(hz, rampSamples)` retargets the
per-sample phase delta (the delta ramping itself is irrelevant to the claims
below and is elided). -/
def LFO.setFrequency (l : LFO) (hz : ℚ) (_rampSamples : ℕ) : LFO :=
  { l with delta := hz / l.sampleRate }

/-- Modelled from the spec: `setPhase(fraction)` positions the oscillator at
the given fraction of a cycle. -/
def LFO.setPhase (l : LFO) (fraction : ℚ) : LFO := { l with phase := fraction }

/-- Modelled from the spec: the per-channel circular delay buffer
(`DSPHeaders/DelayBuffer.hpp` is not under `src/`).  `write` stores the
sample at the write cursor and advances the cursor circularly. -/
structure DelayLine where
  data : List ℚ
  cursor : ℕ
deriving DecidableEq

/-- Modelled from the spec: store the sample at the write cursor and advance
the cursor circularly.  Unconditional. -/
def DelayLine.write (d : DelayLine) (s : ℚ) : DelayLine :=
  ⟨d.data.set d.cursor s, (d.cursor + 1) % d.data.length⟩

/-- The interpolated fractional-offset read.  Its (cubic, 4th-order)
interpolation scheme lives in the missing `DelayBuffer.hpp`, so the kernel
functions below are parametrized by an arbitrary read function: every
theorem holds for any interpolation scheme. -/
abbrev ReadFn := DelayLine → ℚ → ℚ

/-! ## The consolidated N-oscillator kernel (`src/unnamed/part_000`) -/

/-- From `Kernel::MAX_LFOS` in `src/unnamed/part_000`: the fixed capacity of
the oscillator array. -/
def MAX_LFOS : ℕ := 50

/-- From the `Kernel` constructor in `src/unnamed/part_000`: the only
constraint placed on the oscillator count is `assert(lfoCount <= MAX_LFOS)`.
-/
def kernelCtorAssertOk (lfoCount : ℕ) : Bool := decide (lfoCount ≤ MAX_LFOS)

/-- From `Kernel::calcTap` in `src/unnamed/part_000`: compute the even tap
from `lfo.value()`, the odd tap from `lfo.quadPhaseValue()` when `odd90` is
set (otherwise it equals the even tap), then increment the oscillator.
Returns the tap pair together with the post-increment oscillator. -/
def calcTap (spms : ℚ) (lfo : LFO) (nominalMilliseconds displacementMilliseconds : ℚ)
    (odd90 : Bool) : (ℚ × ℚ) × LFO :=
  let evenTap := (nominalMilliseconds + lfo.value * displacementMilliseconds) * spms
  let oddTap := if odd90 then
      (nominalMilliseconds + lfo.quadPhaseValue * displacementMilliseconds) * spms
    else evenTap
  ((evenTap, oddTap), lfo.increment)

/-- From `Kernel::calcTaps` in `src/unnamed/part_000`: compute the tap pair
of each of the first `lfoCount` oscillators via `calcTap`; oscillators past
the active count are left untouched. -/
def calcTaps (spms nominal disp : ℚ) (odd90 : Bool) :
    ℕ → List LFO → List (ℚ × ℚ) × List LFO
  | 0, lfos => ([], lfos)
  | _ + 1, [] => ([], [])
  | n + 1, lfo :: rest =>
      let r := calcTap spms lfo nominal disp odd90
      let rr := calcTaps spms nominal disp odd90 n rest
      (r.1 :: rr.1, r.2 :: rr.2)

/-- From `Kernel::calcDisplacement` in `src/unnamed/part_000`:
`(maxDelayMilliseconds_ - nominal) * displacementFraction`. -/
def calcDisplacement (maxDelayMilliseconds nominal displacementFraction : ℚ) : ℚ :=
  (maxDelayMilliseconds - nominal) * displacementFraction

/-- From `Kernel::generate` in `src/unnamed/part_000`: sum the delay-line
reads of the first `lfoCount` taps — the first tap component when `isEven`
is true, the second otherwise — and divide by `lfoCount`. -/
def generate (rd : ReadFn) (taps : List (ℚ × ℚ)) (lfoCount : ℕ)
    (delayLine : DelayLine) (isEven : Bool) : ℚ :=
  (((taps.take lfoCount).map
      (fun t => rd delayLine (if isEven then t.1 else t.2))).sum) / (lfoCount : ℚ)

/-- `generate` with its final division made explicit as a fallible step: the
division is well-defined exactly when the divisor `lfoCount` is non-zero. -/
def generateChecked (rd : ReadFn) (taps : List (ℚ × ℚ)) (lfoCount : ℕ)
    (delayLine : DelayLine) (isEven : Bool) : Option ℚ :=
  if lfoCount = 0 then none else some (generate rd taps lfoCount delayLine isEven)

/-- From `Kernel::writeSample` in `src/unnamed/part_000`: for each channel,
read the input sample, produce the wet sample via `generate` (passing
`channel & 1` as the `isEven` argument), write the raw input to the delay
line, and emit `wetMix * wet + dryMix * input`.  The channel counter starts
at 0 for the first channel. -/
def writeSample (rd : ReadFn) (odd90 : Bool) (wetMix dryMix : ℚ)
    (taps : List (ℚ × ℚ)) (lfoCount : ℕ) :
    ℕ → List ℚ → List DelayLine → List ℚ × List DelayLine
  | _, [], dls => ([], dls)
  | _, _ :: _, [] => ([], [])
  | channel, x :: ins, dl :: dls =>
      let outputSample := generate rd taps lfoCount dl (decide (channel % 2 = 1))
      let dl' := dl.write x
      let rest := writeSample rd odd90 wetMix dryMix taps lfoCount (channel + 1) ins dls
      ((wetMix * outputSample + dryMix * x) :: rest.1, dl' :: rest.2)

/-- The parameter addresses dispatched by the kernel. -/
inductive ParameterAddress where
  | rate | depth | delay | dryMix | wetMix | odd90
deriving DecidableEq

/-- The kernel state of `src/unnamed/part_000`: the six ramped parameters,
the active oscillator count, the format-derived scalars, the oscillators and
the per-channel delay lines. -/
structure Kernel where
  rate : Param
  depth : Param
  delay : Param
  dryMix : Param
  wetMix : Param
  odd90 : Param
  lfoCount : ℕ
  samplesPerMillisecond : ℚ
  maxDelayMilliseconds : ℚ
  lfos : List LFO
  delayLines : List DelayLine

/-- The per-sample branch of `Kernel::doRendering` in `src/unnamed/part_000`
(taken when `frameCount == 1`): advance delay and depth via `frameValue()`,
compute the taps with `calcDisplacement`, then `writeSample` with the
frame values of wet and dry mix.  Takes the input samples of one frame (one
per channel) and returns the output samples and the new kernel state. -/
def perSampleStep (rd : ReadFn) (k : Kernel) (ins : List ℚ) : List ℚ × Kernel :=
  let odd90 := k.odd90.boolGet
  let nominalAdv := k.delay.frameValue
  let fracAdv := k.depth.frameValue
  let tl := calcTaps k.samplesPerMillisecond nominalAdv.1
      (calcDisplacement k.maxDelayMilliseconds nominalAdv.1 fracAdv.1) odd90
      k.lfoCount k.lfos
  let wetAdv := k.wetMix.frameValue
  let dryAdv := k.dryMix.frameValue
  let ws := writeSample rd odd90 wetAdv.1 dryAdv.1 tl.1 k.lfoCount 0 ins k.delayLines
  (ws.1, { k with delay := nominalAdv.2, depth := fracAdv.2,
                  wetMix := wetAdv.2, dryMix := dryAdv.2,
                  lfos := tl.2, delayLines := ws.2 })

/-- The loop of the per-block branch of `Kernel::doRendering` in
`src/unnamed/part_000`: with nominal delay, displacement, wet and dry mix
fixed for the whole block, each frame recomputes the taps and runs
`writeSample`. -/
def blockLoop (rd : ReadFn) (spms nominal disp : ℚ) (odd90 : Bool)
    (wet dry : ℚ) (lfoCount : ℕ) :
    List (List ℚ) → List LFO → List DelayLine →
      List (List ℚ) × List LFO × List DelayLine
  | [], lfos, dls => ([], lfos, dls)
  | ins :: rest, lfos, dls =>
      let tl := calcTaps spms nominal disp odd90 lfoCount lfos
      let ws := writeSample rd odd90 wet dry tl.1 lfoCount 0 ins dls
      let r := blockLoop rd spms nominal disp odd90 wet dry lfoCount rest tl.2 ws.2
      (ws.1 :: r.1, r.2.1, r.2.2)

/-- The per-block branch of `Kernel::doRendering` in `src/unnamed/part_000`
(taken when `frameCount != 1`): fetch delay, depth, wet-mix and dry-mix once
via `get()`, compute one displacement, then iterate the block loop. -/
def blockRender (rd : ReadFn) (k : Kernel) (frames : List (List ℚ)) :
    List (List ℚ) × Kernel :=
  let odd90 := k.odd90.boolGet
  let nominal := k.delay.get
  let frac := k.depth.get
  let disp := calcDisplacement k.maxDelayMilliseconds nominal frac
  let wet := k.wetMix.get
  let dry := k.dryMix.get
  let r := blockLoop rd k.samplesPerMillisecond nominal disp odd90 wet dry
      k.lfoCount frames k.lfos k.delayLines
  (r.1, { k with lfos := r.2.1, delayLines := r.2.2 })

/-- The per-sample strategy applied to a whole block: iterate
`perSampleStep` frame by frame (this is what `doRendering` does when every
frame arrives with `frameCount == 1`, i.e. while ramping). -/
def perSampleIter (rd : ReadFn) : Kernel → List (List ℚ) → List (List ℚ) × Kernel
  | k, [] => ([], k)
  | k, ins :: rest =>
      let s := perSampleStep rd k ins
      let r := perSampleIter rd s.2 rest
      (s.1 :: r.1, r.2)

/-- From `Kernel::doRendering` in `src/unnamed/part_000`: a one-frame render
request takes the per-sample branch, anything else takes the per-block
branch. -/
def doRendering (rd : ReadFn) (k : Kernel) (frames : List (List ℚ)) :
    List (List ℚ) × Kernel :=
  match frames with
  | [ins] =>
      let s := perSampleStep rd k ins
      ([s.1], s.2)
  | _ => blockRender rd k frames

/-- From `Kernel::setRateRamping` in `src/unnamed/part_000`: snap the rate
parameter and fan the new rate out to every oscillator's `setFrequency`. -/
def setRateRamping (k : Kernel) (v : ℚ) (rampingDuration : ℕ) : Kernel :=
  { k with rate := k.rate.set v 0,
           lfos := k.lfos.map (fun l => l.setFrequency v rampingDuration) }

/-- Modelled from the spec: the parameter-event dispatch
(`setRampedParameterValue` is only declared in `src/`; its definition lives
outside the repository sources).  Each address routes to the matching
parameter's `set`; percentage-domain values arrive as 0–100 and are stored
normalized to 0–1; the rate additionally fans out to the oscillators via the
in-source `setRateRamping`. -/
def setRampedParameterValue (k : Kernel) (addr : ParameterAddress) (v : ℚ)
    (dur : ℕ) : Kernel :=
  match addr with
  | .rate => setRateRamping k v dur
  | .depth => { k with depth := k.depth.set (v / 100) dur }
  | .delay => { k with delay := k.delay.set v dur }
  | .dryMix => { k with dryMix := k.dryMix.set (v / 100) dur }
  | .wetMix => { k with wetMix := k.wetMix.set (v / 100) dur }
  | .odd90 => { k with odd90 := k.odd90.set v dur }

/-- Modelled from the spec: `getParameterValue` (only declared in `src/`)
returns the settled value of the addressed parameter in the same domain in
which it was supplied — percentage parameters are scaled back to 0–100. -/
def getParameterValue (k : Kernel) (addr : ParameterAddress) : ℚ :=
  match addr with
  | .rate => k.rate.get
  | .depth => k.depth.get * 100
  | .delay => k.delay.get
  | .dryMix => k.dryMix.get * 100
  | .wetMix => k.wetMix.get * 100
  | .odd90 => k.odd90.get

/-- The legal value domain of each parameter (spec §6): rate and delay are
non-negative millisecond-family values, the mixes and depth are 0–100
percentages, odd90 is 0 or 1. -/
def legalDomain : ParameterAddress → ℚ → Prop
  | .rate, v => 0 ≤ v
  | .depth, v => 0 ≤ v ∧ v ≤ 100
  | .delay, v => 0 ≤ v
  | .dryMix, v => 0 ≤ v ∧ v ≤ 100
  | .wetMix, v => 0 ≤ v ∧ v ≤ 100
  | .odd90, v => v = 0 ∨ v = 1

/-- From `Kernel::doRenderingStateChanged` in
`src/Sources/Kernel/C++/Kernel.hpp`: when rendering stops, call
`stopRamping()` on the rate, depth, delay, dry-mix and wet-mix parameters
(the `odd90_` parameter is absent from the body). -/
def doRenderingStateChanged (k : Kernel) (rendering : Bool) : Kernel :=
  if rendering then k
  else { k with rate := k.rate.stopRamping, depth := k.depth.stopRamping,
                delay := k.delay.stopRamping, dryMix := k.dryMix.stopRamping,
                wetMix := k.wetMix.stopRamping }

/-! ## The historical single-LFO variant (`src/unnamed/part_001`) -/

/-- From `Kernel::renderFrames` in `src/unnamed/part_001`, the per-channel
body of the frame loop: when the displacement is non-zero, read the delay
line at the odd tap for odd channels under odd90 (even tap otherwise) and
then write the input sample; when the displacement is zero the delayed
sample falls back to the input and the delay line is neither read nor
written. -/
def renderFramesChannel (rd : ReadFn) (odd90 : Bool) (channel : ℕ)
    (evenDelay oddDelay displacement wetMix dryMix : ℚ) (x : ℚ)
    (dl : DelayLine) : ℚ × DelayLine :=
  if displacement = 0 then
    (wetMix * x + dryMix * x, dl)
  else
    let delayedSample :=
      rd dl (if decide (channel % 2 = 1) && odd90 then oddDelay else evenDelay)
    (wetMix * delayedSample + dryMix * x, dl.write x)

/-- From `doRendering` in `src/Sources/Kernel/C++/Kernel.hpp` (lines
117-125): the per-sample displacement on that render path is
`tap * displacementFraction`, where `tap` is that sample's frame value of
the delay parameter — the maximum delay does not enter the formula. -/
def hppDisplacement (tap displacementFraction : ℚ) : ℚ :=
  tap * displacementFraction

/-- From `renderFrames` in `src/unnamed/part_001` (lines 126-128): the
displacement on that render path is
`std::max(tap - minTap, 0) * displacementFraction` with
`minTap = 1.0E-3`. -/
def renderFramesDisplacement (tap displacementFraction : ℚ) : ℚ :=
  max (tap - 1/1000) 0 * displacementFraction

/-! ## Phase-offset assignment in `initialize` (`src/unnamed/part_000`) -/

/-- From `Kernel::initialize` in `src/unnamed/part_000`: the value passed to
`setPhase` for oscillator `index` is `index / lfos_.size()`, an `int` /
`size_t` division — C++ integer division — with `lfos_.size()` equal to the
fixed array capacity `MAX_LFOS`. -/
def initPhaseArg (index : ℕ) : ℚ := ((index / MAX_LFOS : ℕ) : ℚ)

/-- From `Kernel::initialize` in `src/unnamed/part_000`: the loop assigns a
phase offset to each of the `lfos_.size() = MAX_LFOS` oscillators. -/
def initPhaseOffsets : List ℚ := (List.range MAX_LFOS).map initPhaseArg

/-- The phase offset the spec prescribes for oscillator `index` out of
`oscillatorCount` active oscillators: `index / oscillatorCount` of a cycle,
as an exact rational division. -/
def specPhaseOffset (index oscillatorCount : ℕ) : ℚ :=
  (index : ℚ) / (oscillatorCount : ℚ)

/-! ## Ramp sequences -/

/-- The parameter state after `n` calls of `frameValue()`. -/
def Param.frameN (p : Param) : ℕ → Param
  | 0 => p
  | n + 1 => ((p.frameN n).frameValue).2

/-- The value returned by the `k`-th (0-indexed) call of `frameValue()`. -/
def Param.sampleValue (p : Param) (k : ℕ) : ℚ := ((p.frameN k).frameValue).1

/-! ## Theorems -/

/-- C1: for every rendered sample (`calcTaps` runs exactly once per sample in
both branches of `doRendering`) and every active oscillator, the even tap is
`(nominalMs + oscillator.value() * displacementMs) * samplesPerMs`, the odd
tap uses `quadPhaseValue()` instead when odd90 is enabled and equals the
even tap otherwise, and each active oscillator is replaced by exactly one
`increment()` of its pre-read state — both tap values being functions of the
pre-increment state, i.e. the increment happens after both reads.
Oscillators beyond the active count are untouched. -/
theorem c1_tap_formula (spms nominal disp : ℚ) (odd90 : Bool) (count : ℕ)
    (lfos : List LFO) :
    calcTaps spms nominal disp odd90 count lfos =
      ((lfos.take count).map (fun l =>
          ((nominal + l.value * disp) * spms,
           if odd90 then (nominal + l.quadPhaseValue * disp) * spms
           else (nominal + l.value * disp) * spms)),
       (lfos.take count).map LFO.increment ++ lfos.drop count) := by
  induction count generalizing lfos with
  | zero => simp [calcTaps]
  | succ n ih =>
    cases lfos with
    | nil => simp [calcTaps]
    | cons l rest => simp [calcTaps, calcTap, ih rest]

/-- C2 counterexample: the claim's formula fails on the render paths the
claim also cites.  At maximum delay 50 ms, nominal delay 5 ms and
displacement fraction 1/2, the claimed formula
`(maxDelayMs - nominal) * fraction` gives 45/2, but the displacement
computed by `doRendering` in `Kernel.hpp` is `tap * fraction = 5/2`, and
the one computed by `renderFrames` in `part_001` is
`max(tap - 0.001, 0) * fraction = 4999/2000`. -/
theorem c2_variant_displacement_differs :
    hppDisplacement 5 (1/2) ≠ calcDisplacement 50 5 (1/2) ∧
    renderFramesDisplacement 5 (1/2) ≠ calcDisplacement 50 5 (1/2) := by
  constructor <;>
    norm_num [hppDisplacement, renderFramesDisplacement, calcDisplacement]

/-- C2 amended: in the consolidated N-oscillator kernel, the displacement
used for a rendered sample is
`(maxDelayMilliseconds - nominal) * displacementFraction` — in the
per-sample branch nominal and fraction are that sample's `frameValue()`s of
the delay and depth parameters, and in the per-block branch one
displacement is computed from the settled `get()` values and handed
unchanged to every iteration of the block loop.  The single-LFO variant of
`Kernel.hpp` instead computes `nominal * fraction`, and the historical
variant of `part_001` computes `max(nominal - 0.001, 0) * fraction`. -/
theorem c2_displacement (rd : ReadFn) (k : Kernel) (ins : List ℚ)
    (frames : List (List ℚ)) :
    (∀ maxD nominal frac : ℚ,
        calcDisplacement maxD nominal frac = (maxD - nominal) * frac) ∧
    perSampleStep rd k ins =
      (let nominal := (k.delay.frameValue).1
       let frac := (k.depth.frameValue).1
       let tl := calcTaps k.samplesPerMillisecond nominal
           ((k.maxDelayMilliseconds - nominal) * frac) k.odd90.boolGet
           k.lfoCount k.lfos
       let ws := writeSample rd k.odd90.boolGet (k.wetMix.frameValue).1
           (k.dryMix.frameValue).1 tl.1 k.lfoCount 0 ins k.delayLines
       (ws.1, { k with delay := (k.delay.frameValue).2,
                       depth := (k.depth.frameValue).2,
                       wetMix := (k.wetMix.frameValue).2,
                       dryMix := (k.dryMix.frameValue).2,
                       lfos := tl.2, delayLines := ws.2 })) ∧
    blockRender rd k frames =
      (let r := blockLoop rd k.samplesPerMillisecond k.delay.get
           ((k.maxDelayMilliseconds - k.delay.get) * k.depth.get)
           k.odd90.boolGet k.wetMix.get k.dryMix.get k.lfoCount frames
           k.lfos k.delayLines
       (r.1, { k with lfos := r.2.1, delayLines := r.2.2 })) ∧
    (∀ tap frac : ℚ, hppDisplacement tap frac = tap * frac) ∧
    (∀ tap frac : ℚ,
        renderFramesDisplacement tap frac = max (tap - 1/1000) 0 * frac) :=
  ⟨fun _ _ _ => rfl, rfl, rfl, fun _ _ => rfl, fun _ _ => rfl⟩

/-- C3: evaluation of `writeSample` at the failing input.  With odd90
enabled, one active oscillator whose tap pair is (10, 20) (even tap 10, odd
tap 20), unit wet mix, zero dry mix, and a read function returning the
requested offset, channel 0 (even) produces 20 — the odd tap — and channel
1 (odd) produces 10 — the even tap.  The code passes `channel & 1` as the
`isEven` argument of `generate`, so the even/odd tap selection is swapped
relative to the claim. -/
theorem c3_even_odd_swapped :
    (writeSample (fun _ off => off) true 1 0 [((10 : ℚ), (20 : ℚ))] 1 0
        [0, 0] [⟨[0, 0], 0⟩, ⟨[0, 0], 0⟩]).1 = [20, 10] ∧
    ([20, 10] : List ℚ) ≠ [10, 20] := by
  constructor
  · norm_num [writeSample, generate]
  · decide

/-- C9: evaluation of the phase-offset assignment at the failing input.  The
`initialize` loop passes `index / lfos_.size()` to `setPhase`, an integer
division with divisor `MAX_LFOS = 50` — the fixed array capacity, not the
active oscillator count — so every oscillator receives phase offset 0,
while the claim prescribes `index / oscillatorCount` (e.g. 1/10 for
oscillator 1 of 10). -/
theorem c9_phase_offsets_all_zero :
    initPhaseOffsets = List.replicate MAX_LFOS 0 ∧
    initPhaseArg 1 = 0 ∧
    specPhaseOffset 1 10 ≠ 0 := by
  refine ⟨?_, by decide, by norm_num [specPhaseOffset]⟩
  decide

/-- C10: the constructor assertion `lfoCount <= MAX_LFOS` accepts
`lfoCount = 0` (there is no lower bound), and the division closing
`generate` is well-defined — `generateChecked` returns a value — exactly
when `lfoCount` is non-zero; with `lfoCount = 0` every per-channel,
per-sample wet computation divides by zero. -/
theorem c10_zero_lfo_division :
    kernelCtorAssertOk 0 = true ∧
    ∀ (rd : ReadFn) (taps : List (ℚ × ℚ)) (n : ℕ) (dl : DelayLine) (ev : Bool),
      (generateChecked rd taps n dl ev = none ↔ n = 0) := by
  refine ⟨by decide, ?_⟩
  intro rd taps n dl ev
  unfold generateChecked
  by_cases h : n = 0 <;> simp [h]

/-- C8 counterexample: a kernel whose boolean odd90 parameter is mid-ramp
(current 0, target 1, 10 samples remaining).  After the rendering-stopped
notification its current value still differs from its target: the
`doRenderingStateChanged` body stops only the five continuous parameters,
so the claim as stated — every Ramped Parameter is stopped — is false. -/
theorem c8_odd90_not_stopped :
    ((doRenderingStateChanged
        ⟨⟨0, 0, 0⟩, ⟨0, 0, 0⟩, ⟨0, 0, 0⟩, ⟨0, 0, 0⟩, ⟨0, 0, 0⟩, ⟨0, 1, 10⟩,
         1, 1, 0, [], []⟩ false).odd90.value ≠
     (doRenderingStateChanged
        ⟨⟨0, 0, 0⟩, ⟨0, 0, 0⟩, ⟨0, 0, 0⟩, ⟨0, 0, 0⟩, ⟨0, 0, 0⟩, ⟨0, 1, 10⟩,
         1, 1, 0, [], []⟩ false).odd90.target) := by
  decide

/-- C8 amended: when the kernel is notified that rendering has stopped, the
five continuous ramped parameters — rate, depth, delay, dry mix, wet mix —
have their ramps cancelled by `stopRamping()` (current equals target, no
remaining ramp), while the boolean odd90 parameter is left untouched. -/
theorem c8_stops_continuous_params (k : Kernel) :
    ((doRenderingStateChanged k false).rate.value =
        (doRenderingStateChanged k false).rate.target ∧
     (doRenderingStateChanged k false).rate.remaining = 0) ∧
    ((doRenderingStateChanged k false).depth.value =
        (doRenderingStateChanged k false).depth.target ∧
     (doRenderingStateChanged k false).depth.remaining = 0) ∧
    ((doRenderingStateChanged k false).delay.value =
        (doRenderingStateChanged k false).delay.target ∧
     (doRenderingStateChanged k false).delay.remaining = 0) ∧
    ((doRenderingStateChanged k false).dryMix.value =
        (doRenderingStateChanged k false).dryMix.target ∧
     (doRenderingStateChanged k false).dryMix.remaining = 0) ∧
    ((doRenderingStateChanged k false).wetMix.value =
        (doRenderingStateChanged k false).wetMix.target ∧
     (doRenderingStateChanged k false).wetMix.remaining = 0) ∧
    (doRenderingStateChanged k false).odd90 = k.odd90 := by
  simp [doRenderingStateChanged, Param.stopRamping]

/-- The closed form of `writeSample`: each channel's output is computed by
`generate` applied to that channel's delay line *before* the write, and the
new delay lines are exactly the old ones each written once with that
channel's input sample. -/
lemma writeSample_closed (rd : ReadFn) (od : Bool) (wet dry : ℚ)
    (taps : List (ℚ × ℚ)) (n : ℕ) :
    ∀ (ch : ℕ) (ins : List ℚ) (dls : List DelayLine),
      writeSample rd od wet dry taps n ch ins dls =
        (((ins.zip dls).enumFrom ch).map
            (fun p => wet * generate rd taps n p.2.2 (decide (p.1 % 2 = 1))
              + dry * p.2.1),
         (List.zipWith (fun x dl => dl.write x) ins dls)
           ++ dls.drop ins.length) := by
  intro ch ins
  induction ins generalizing ch with
  | nil => intro dls; simp [writeSample]
  | cons x ins ih =>
    intro dls
    cases dls with
    | nil => simp [writeSample]
    | cons dl dls => simp [writeSample, List.enumFrom, List.zip, ih (ch + 1) dls]

/-- C5 counterexample: in the historical variant's `renderFrames` channel
body, with displacement 0 the delay line comes back unchanged — in
particular it is not written — so the write is not unconditional there. -/
theorem c5_zero_displacement_skips_write :
    (renderFramesChannel (fun _ off => off) false 0 3 4 0 1 0 1
        ⟨[5, 6, 7], 0⟩).2 = ⟨[5, 6, 7], 0⟩ ∧
    (⟨[5, 6, 7], 0⟩ : DelayLine) ≠ DelayLine.write ⟨[5, 6, 7], 0⟩ 1 := by
  constructor
  · rfl
  · decide

/-- C5 amended: in the consolidated N-oscillator kernel, every channel's
wet sample is produced by reading (via `generate`) the channel's delay line
as it was before the write, and every channel's delay line is written
exactly once per rendered sample, unconditionally.  In the historical
single-LFO variant (`renderFrames` of `src/unnamed/part_001`), the read
also happens before the write but both are guarded: when the displacement
is non-zero the channel reads then writes, and when the displacement is
zero neither the read nor the write happens and the input passes through. -/
theorem c5_read_then_write (rd : ReadFn) (od : Bool) (wet dry : ℚ)
    (taps : List (ℚ × ℚ)) (n ch : ℕ) (ins : List ℚ) (dls : List DelayLine)
    (e o d : ℚ) (x : ℚ) (dl : DelayLine) (hd : d ≠ 0) :
    writeSample rd od wet dry taps n ch ins dls =
      (((ins.zip dls).enumFrom ch).map
          (fun p => wet * generate rd taps n p.2.2 (decide (p.1 % 2 = 1))
            + dry * p.2.1),
       (List.zipWith (fun y dl0 => dl0.write y) ins dls)
         ++ dls.drop ins.length) ∧
    renderFramesChannel rd od ch e o d wet dry x dl =
      (wet * rd dl (if decide (ch % 2 = 1) && od then o else e) + dry * x,
       dl.write x) ∧
    renderFramesChannel rd od ch e o 0 wet dry x dl =
      (wet * x + dry * x, dl) := by
  refine ⟨writeSample_closed rd od wet dry taps n ch ins dls, ?_, ?_⟩
  · simp [renderFramesChannel, hd]
  · simp [renderFramesChannel]

/-- C5 witness: the amended theorem applied at a concrete non-zero
displacement; the odd channel under odd90 reads the odd tap offset before
the write lands. -/
theorem c5_read_then_write_witness :
    renderFramesChannel (fun _ off => off) true 1 3 4 2 1 0 9
        ⟨[5, 6, 7], 0⟩ =
      (1 * 4 + 0 * 9, DelayLine.write ⟨[5, 6, 7], 0⟩ 9) :=
  (c5_read_then_write (fun _ off => off) true 1 0 [] 1 1 [] [] 3 4 2 9
    ⟨[5, 6, 7], 0⟩ (by norm_num)).2.1

/-- C6: applying a parameter change with ramp duration 0 and then reading
the current parameter value returns the supplied value — exactly in this
rational model, hence within the claimed 1e-5 tolerance — in the same
domain in which it was supplied, for every parameter id and every value in
its legal domain. -/
theorem c6_round_trip (k : Kernel) (addr : ParameterAddress) (v : ℚ)
    (h : legalDomain addr v) :
    |getParameterValue (setRampedParameterValue k addr v 0) addr - v|
      ≤ 1 / 100000 := by
  have h100 : (100 : ℚ) ≠ 0 := by norm_num
  cases addr <;>
    simp [getParameterValue, setRampedParameterValue, setRateRamping,
          Param.set, Param.get, div_mul_cancel₀ _ h100]

/-- C6 witness: the round trip at the depth parameter with the test value
13.5 from `testKernelParams`. -/
theorem c6_round_trip_witness :
    legalDomain ParameterAddress.depth (27 / 2) ∧
    |getParameterValue
        (setRampedParameterValue
          ⟨⟨0, 0, 0⟩, ⟨0, 0, 0⟩, ⟨0, 0, 0⟩, ⟨0, 0, 0⟩, ⟨0, 0, 0⟩, ⟨0, 0, 0⟩,
           10, 44, 20, [], []⟩ ParameterAddress.depth (27 / 2) 0)
        ParameterAddress.depth - 27 / 2| ≤ 1 / 100000 :=
  ⟨by norm_num [legalDomain],
   c6_round_trip _ ParameterAddress.depth (27 / 2) (by norm_num [legalDomain])⟩

/-- A settled parameter's `frameValue()` returns its settled `get()` value
and leaves the parameter unchanged. -/
lemma settled_frameValue (p : Param) (h : p.settled) :
    p.frameValue = (p.get, p) := by
  obtain ⟨h1, h2⟩ := h
  simp [Param.frameValue, Param.get, h1, h2]

/-- When all four rendering parameters are settled, iterating the
per-sample strategy over a block produces exactly the per-block loop run
with the settled values fetched once. -/
lemma perSampleIter_settled (rd : ReadFn) (k : Kernel)
    (hdel : k.delay.settled) (hdep : k.depth.settled)
    (hwet : k.wetMix.settled) (hdry : k.dryMix.settled) :
    ∀ (frames : List (List ℚ)) (lfos : List LFO) (dls : List DelayLine),
      perSampleIter rd { k with lfos := lfos, delayLines := dls } frames =
        ((blockLoop rd k.samplesPerMillisecond k.delay.get
            (calcDisplacement k.maxDelayMilliseconds k.delay.get k.depth.get)
            k.odd90.boolGet k.wetMix.get k.dryMix.get k.lfoCount frames
            lfos dls).1,
         { k with
             lfos := (blockLoop rd k.samplesPerMillisecond k.delay.get
               (calcDisplacement k.maxDelayMilliseconds k.delay.get
                 k.depth.get) k.odd90.boolGet k.wetMix.get k.dryMix.get
               k.lfoCount frames lfos dls).2.1,
             delayLines := (blockLoop rd k.samplesPerMillisecond k.delay.get
               (calcDisplacement k.maxDelayMilliseconds k.delay.get
                 k.depth.get) k.odd90.boolGet k.wetMix.get k.dryMix.get
               k.lfoCount frames lfos dls).2.2 }) := by
  intro frames
  induction frames with
  | nil => intro lfos dls; simp [perSampleIter, blockLoop]
  | cons ins rest ih =>
    intro lfos dls
    simp only [perSampleIter, perSampleStep, blockLoop]
    rw [show ({ k with lfos := lfos, delayLines := dls } : Kernel).delay
          = k.delay from rfl,
        show ({ k with lfos := lfos, delayLines := dls } : Kernel).depth
          = k.depth from rfl,
        show ({ k with lfos := lfos, delayLines := dls } : Kernel).wetMix
          = k.wetMix from rfl,
        show ({ k with lfos := lfos, delayLines := dls } : Kernel).dryMix
          = k.dryMix from rfl,
        settled_frameValue _ hdel, settled_frameValue _ hdep,
        settled_frameValue _ hwet, settled_frameValue _ hdry]
    simp only []
    rw [ih]

/-- C4: on a block during which no parameter ramp is in progress (delay,
depth, wet mix and dry mix all settled), the per-block strategy of
`doRendering` — settled values fetched once, one displacement reused for
every sample — produces, frame for frame and channel for channel, exactly
the outputs and final state that the per-sample strategy (advancing every
parameter with `frameValue()` each sample) produces on the same input. -/
theorem c4_block_equiv (rd : ReadFn) (k : Kernel) (frames : List (List ℚ))
    (hdel : k.delay.settled) (hdep : k.depth.settled)
    (hwet : k.wetMix.settled) (hdry : k.dryMix.settled) :
    blockRender rd k frames = perSampleIter rd k frames := by
  have h := perSampleIter_settled rd k hdel hdep hwet hdry frames
    k.lfos k.delayLines
  rw [show ({ k with lfos := k.lfos, delayLines := k.delayLines } : Kernel)
        = k from rfl] at h
  rw [h]
  rfl

/-- C4 witness: the strategies agree on a concrete settled kernel and a
two-frame block. -/
theorem c4_block_equiv_witness :
    ((⟨⟨3, 3, 0⟩, ⟨1, 1, 0⟩, ⟨3, 3, 0⟩, ⟨1, 1, 0⟩, ⟨1, 1, 0⟩, ⟨0, 0, 0⟩,
       1, 2, 5, [⟨fun _ => 1, 10, 0, 0⟩], [⟨[0, 0, 0], 0⟩]⟩ : Kernel).delay.settled) ∧
    blockRender (fun _ off => off)
        ⟨⟨3, 3, 0⟩, ⟨1, 1, 0⟩, ⟨3, 3, 0⟩, ⟨1, 1, 0⟩, ⟨1, 1, 0⟩, ⟨0, 0, 0⟩,
         1, 2, 5, [⟨fun _ => 1, 10, 0, 0⟩], [⟨[0, 0, 0], 0⟩]⟩ [[1], [2]] =
      perSampleIter (fun _ off => off)
        ⟨⟨3, 3, 0⟩, ⟨1, 1, 0⟩, ⟨3, 3, 0⟩, ⟨1, 1, 0⟩, ⟨1, 1, 0⟩, ⟨0, 0, 0⟩,
         1, 2, 5, [⟨fun _ => 1, 10, 0, 0⟩], [⟨[0, 0, 0], 0⟩]⟩ [[1], [2]] :=
  ⟨by decide,
   c4_block_equiv _ _ _ (by decide) (by decide) (by decide) (by decide)⟩

/-- Advancing the ramp state a + b samples is advancing it a samples and
then b samples. -/
lemma frameN_add (p : Param) (a : ℕ) : ∀ b, p.frameN (a + b) = (p.frameN a).frameN b
  | 0 => rfl
  | b + 1 => by
    rw [show a + (b + 1) = (a + b) + 1 from rfl]
    simp [Param.frameN, frameN_add p a b]

/-- While ramping from v0 toward t over N samples, the state after k
advances holds the k-th linear-interpolation point with N - k samples
remaining. -/
lemma frameN_linear (v0 t : ℚ) (N : ℕ) (hN : 0 < N) :
    ∀ k, k ≤ N →
      (Param.mk v0 t N).frameN k = ⟨v0 + (t - v0) * k / N, t, N - k⟩ := by
  intro k
  induction k with
  | zero => intro _; simp [Param.frameN]
  | succ k ih =>
    intro hk
    have hkN : k < N := hk
    have hsub : N - k ≠ 0 := Nat.sub_ne_zero_of_lt hkN
    have hcast : ((N - k : ℕ) : ℚ) = (N : ℚ) - (k : ℚ) := by
      exact_mod_cast Nat.cast_sub hkN.le
    have hNQ : (N : ℚ) ≠ 0 := Nat.cast_ne_zero.mpr hN.ne'
    have hNkQ : ((N : ℚ) - (k : ℚ)) ≠ 0 := by
      rw [← hcast]
      exact_mod_cast hsub
    rw [Param.frameN, ih hkN.le]
    simp only [Param.frameValue, hsub, if_false, Param.mk.injEq]
    refine ⟨?_, trivial, by omega⟩
    rw [hcast]
    field_simp
    ring

/-- After the ramp has completed, the state is pinned at the target. -/
lemma frameN_done (v0 t : ℚ) (N : ℕ) (hN : 0 < N) :
    (Param.mk v0 t N).frameN N = ⟨t, t, 0⟩ := by
  rw [frameN_linear v0 t N hN N le_rfl]
  have hNQ : (N : ℚ) ≠ 0 := Nat.cast_ne_zero.mpr hN.ne'
  have hv : v0 + (t - v0) * (N : ℚ) / N = t := by field_simp
  simp [hv]

/-- A parameter pinned at its target is a fixed point of `frameValue()`. -/
lemma frameN_target_fixed (t : ℚ) : ∀ j, (Param.mk t t 0).frameN j = ⟨t, t, 0⟩
  | 0 => rfl
  | j + 1 => by simp [Param.frameN, frameN_target_fixed t j, Param.frameValue]

/-- C7: after `set(target, N)` from settled value v0 with N > 0, the k-th
per-frame value (k = 0..N-1) is the linear interpolation
`v0 + (target - v0) * (k + 1) / N`, the sequence over samples 0..N-1 is
non-decreasing when target > v0 and non-increasing when target < v0, the
value at sample N equals the target exactly, and from sample N on the state
stays pinned at the target — no further interpolation occurs. -/
theorem c7_ramp_linear_monotone (v0 t : ℚ) (N : ℕ) (hN : 0 < N) :
    (∀ k, k < N →
      (Param.set ⟨v0, v0, 0⟩ t N).sampleValue k
        = v0 + (t - v0) * (k + 1) / N) ∧
    (v0 < t → ∀ j k, j ≤ k → k < N →
      (Param.set ⟨v0, v0, 0⟩ t N).sampleValue j
        ≤ (Param.set ⟨v0, v0, 0⟩ t N).sampleValue k) ∧
    (t < v0 → ∀ j k, j ≤ k → k < N →
      (Param.set ⟨v0, v0, 0⟩ t N).sampleValue k
        ≤ (Param.set ⟨v0, v0, 0⟩ t N).sampleValue j) ∧
    (Param.set ⟨v0, v0, 0⟩ t N).sampleValue N = t ∧
    (∀ m, N ≤ m → (Param.set ⟨v0, v0, 0⟩ t N).frameN m = ⟨t, t, 0⟩) := by
  have hset : Param.set ⟨v0, v0, 0⟩ t N = ⟨v0, t, N⟩ := by
    simp [Param.set, hN.ne']
  rw [hset]
  have hNQ : (0 : ℚ) < (N : ℚ) := by exact_mod_cast hN
  have hval : ∀ k, k < N →
      (Param.mk v0 t N).sampleValue k = v0 + (t - v0) * (k + 1) / N := by
    intro k hk
    have hsub : N - k ≠ 0 := Nat.sub_ne_zero_of_lt hk
    have hcast : ((N - k : ℕ) : ℚ) = (N : ℚ) - (k : ℚ) := by
      exact_mod_cast Nat.cast_sub hk.le
    have hNkQ : ((N : ℚ) - (k : ℚ)) ≠ 0 := by
      rw [← hcast]
      exact_mod_cast hsub
    unfold Param.sampleValue
    rw [frameN_linear v0 t N hN k hk.le]
    simp only [Param.frameValue, hsub, if_false]
    rw [hcast]
    field_simp
    ring
  refine ⟨hval, ?_, ?_, ?_, ?_⟩
  · intro hvt j k hjk hk
    rw [hval j (lt_of_le_of_lt hjk hk), hval k hk]
    have h1 : (0 : ℚ) ≤ t - v0 := by linarith
    have hjk' : ((j : ℚ) + 1) ≤ (k : ℚ) + 1 := by
      exact_mod_cast Nat.succ_le_succ hjk
    have h2 : (t - v0) * ((j : ℚ) + 1) ≤ (t - v0) * ((k : ℚ) + 1) :=
      mul_le_mul_of_nonneg_left hjk' h1
    have h3 := (div_le_div_iff_of_pos_right hNQ).mpr h2
    linarith
  · intro hvt j k hjk hk
    rw [hval j (lt_of_le_of_lt hjk hk), hval k hk]
    have h1 : t - v0 ≤ 0 := by linarith
    have hjk' : ((j : ℚ) + 1) ≤ (k : ℚ) + 1 := by
      exact_mod_cast Nat.succ_le_succ hjk
    have h2 : (t - v0) * ((k : ℚ) + 1) ≤ (t - v0) * ((j : ℚ) + 1) :=
      mul_le_mul_of_nonpos_left hjk' h1
    have h3 := (div_le_div_iff_of_pos_right hNQ).mpr h2
    linarith
  · unfold Param.sampleValue
    rw [frameN_done v0 t N hN]
    simp [Param.frameValue]
  · intro m hm
    obtain ⟨j, rfl⟩ : ∃ j, m = N + j := ⟨m - N, by omega⟩
    rw [frameN_add, frameN_done v0 t N hN, frameN_target_fixed]

/-- C7 witness: a ramp from 0 to 10 over 4 samples reaches the target
exactly at sample 4. -/
theorem c7_ramp_witness :
    (0 : ℕ) < 4 ∧ (Param.set ⟨0, 0, 0⟩ 10 4).sampleValue 4 = 10 :=
  ⟨by norm_num, (c7_ramp_linear_monotone 0 10 4 (by norm_num)).2.2.2.1⟩

end ChorusKernel
